import Mathlib

/-!
Shallow embedding of the CPIO archive parser (scripts/cpio.py).

Byte streams are modelled as `List Nat` (each element one byte value), file
reads as take/drop slices that may return fewer bytes than requested near the
end of the stream, and fallible operations return `Option`.
-/

namespace CPIO

/-- The five CPIO format variants, as selected by `CPIOArchiveFile.OpenFileObject`
from the leading signature. The python code carries them as the strings
bin-big-endian, bin-little-endian, odc, newc and crc. -/
inductive CPIOFormat where
  | binBigEndian
  | binLittleEndian
  | odc
  | newc
  | crc
deriving DecidableEq, Repr

/-- Slice of a byte stream: python file semantics of seek(off) followed by
read(n), which returns at most n bytes and fewer near end of stream. -/
def sub (data : List Nat) (off n : Nat) : List Nat :=
  (data.drop off).take n

/-- Size in bytes of the fixed header block per format: 26 for the two binary
variants (13 16-bit fields), 76 for portable ascii, 110 for the new ascii
variants, matching the construct struct sizes in the source. -/
def headerSize : CPIOFormat → Nat
  | .binBigEndian => 26
  | .binLittleEndian => 26
  | .odc => 76
  | .newc => 110
  | .crc => 110

/-- Big-endian 16-bit field number `i` of a binary header block. -/
def u16be (hdr : List Nat) (i : Nat) : Nat :=
  hdr.getD (2 * i) 0 * 256 + hdr.getD (2 * i + 1) 0

/-- Little-endian 16-bit field number `i` of a binary header block. -/
def u16le (hdr : List Nat) (i : Nat) : Nat :=
  hdr.getD (2 * i) 0 + 256 * hdr.getD (2 * i + 1) 0

/-- Value of one ascii digit byte in the given base (octal for the odc format,
hexadecimal for newc and crc), or `none` when the byte is not a digit of that
base. Models the digit handling of python int(string, base). -/
def digitVal (base c : Nat) : Option Nat :=
  if 48 ≤ c ∧ c ≤ 57 ∧ c - 48 < base then some (c - 48)
  else if base = 16 ∧ 97 ≤ c ∧ c ≤ 102 then some (c - 87)
  else if base = 16 ∧ 65 ≤ c ∧ c ≤ 70 then some (c - 55)
  else none

/-- Accumulating digit fold for `parseNum`. -/
def parseNumAux (base : Nat) : List Nat → Nat → Option Nat
  | [], acc => some acc
  | c :: cs, acc =>
    match digitVal base c with
    | none => none
    | some d => parseNumAux base cs (acc * base + d)

/-- Fixed-width ascii numeric field decode, python int(string, base): fails on
an empty string or on any byte that is not a digit of the base. A failure
models the ValueError that aborts the scan. -/
def parseNum (base : Nat) (s : List Nat) : Option Nat :=
  match s with
  | [] => none
  | _ => parseNumAux base s 0

/-- The normalized header fields that `CPIOArchiveFile._ReadFileEntry` extracts
from a parsed header block, independent of the variant. -/
structure HeaderFields where
  inode_number : Nat
  mode : Nat
  user_identifier : Nat
  group_identifier : Nat
  modification_time : Nat
  path_string_size : Nat
  file_size : Nat
deriving DecidableEq, Repr

/-- Field extraction of `CPIOArchiveFile._ReadFileEntry` on a header block that
construct parsed successfully: raw 16-bit fields recombined as
(upper <<< 16) ||| lower for the binary variants, octal ascii fields for
portable ascii, hexadecimal ascii fields for the new ascii variants. -/
def decodeHeader : CPIOFormat → List Nat → Option HeaderFields
  | .binBigEndian, hdr =>
    some {
      inode_number := u16be hdr 2
      mode := u16be hdr 3
      user_identifier := u16be hdr 4
      group_identifier := u16be hdr 5
      modification_time := (u16be hdr 8 <<< 16) ||| u16be hdr 9
      path_string_size := u16be hdr 10
      file_size := (u16be hdr 11 <<< 16) ||| u16be hdr 12 }
  | .binLittleEndian, hdr =>
    some {
      inode_number := u16le hdr 2
      mode := u16le hdr 3
      user_identifier := u16le hdr 4
      group_identifier := u16le hdr 5
      modification_time := (u16le hdr 8 <<< 16) ||| u16le hdr 9
      path_string_size := u16le hdr 10
      file_size := (u16le hdr 11 <<< 16) ||| u16le hdr 12 }
  | .odc, hdr => do
    let inode ← parseNum 8 (sub hdr 12 6)
    let mode ← parseNum 8 (sub hdr 18 6)
    let uid ← parseNum 8 (sub hdr 24 6)
    let gid ← parseNum 8 (sub hdr 30 6)
    let mtime ← parseNum 8 (sub hdr 48 11)
    let psz ← parseNum 8 (sub hdr 59 6)
    let fsize ← parseNum 8 (sub hdr 65 11)
    some {
      inode_number := inode, mode := mode, user_identifier := uid
      group_identifier := gid, modification_time := mtime
      path_string_size := psz, file_size := fsize }
  | .newc, hdr => do
    let inode ← parseNum 16 (sub hdr 6 8)
    let mode ← parseNum 16 (sub hdr 14 8)
    let uid ← parseNum 16 (sub hdr 22 8)
    let gid ← parseNum 16 (sub hdr 30 8)
    let mtime ← parseNum 16 (sub hdr 46 8)
    let psz ← parseNum 16 (sub hdr 94 8)
    let fsize ← parseNum 16 (sub hdr 54 8)
    some {
      inode_number := inode, mode := mode, user_identifier := uid
      group_identifier := gid, modification_time := mtime
      path_string_size := psz, file_size := fsize }
  | .crc, hdr => do
    let inode ← parseNum 16 (sub hdr 6 8)
    let mode ← parseNum 16 (sub hdr 14 8)
    let uid ← parseNum 16 (sub hdr 22 8)
    let gid ← parseNum 16 (sub hdr 30 8)
    let mtime ← parseNum 16 (sub hdr 46 8)
    let psz ← parseNum 16 (sub hdr 94 8)
    let fsize ← parseNum 16 (sub hdr 54 8)
    some {
      inode_number := inode, mode := mode, user_identifier := uid
      group_identifier := gid, modification_time := mtime
      path_string_size := psz, file_size := fsize }

/-- Round-to-even shortfall as written in the source: p = off % 2 and then
2 - p when p is positive. -/
def pad2 (off : Nat) : Nat :=
  let p := off % 2
  if p > 0 then 2 - p else p

/-- Round-to-multiple-of-4 shortfall as written in the source: p = off % 4 and
then 4 - p when p is positive. -/
def pad4 (off : Nat) : Nat :=
  let p := off % 4
  if p > 0 then 4 - p else p

/-- Path alignment padding of `CPIOArchiveFile._ReadFileEntry` (the branch on
self.file_format right after the path string is read): align the running file
offset to 2 for the binary variants, no padding for portable ascii, align to 4
for the new ascii variants. -/
def pathPadding : CPIOFormat → Nat → Nat
  | .binBigEndian, off => pad2 off
  | .binLittleEndian, off => pad2 off
  | .odc, _ => 0
  | .newc, off => pad4 off
  | .crc, off => pad4 off

/-- An entry of the archive catalog, mirroring the attributes that
`CPIOArchiveFile._ReadFileEntry` stores on CPIOArchiveFileEntry. The path is
kept as the list of its byte values after ascii decoding and truncation at the
first null byte. -/
structure CPIOArchiveFileEntry where
  data_offset : Nat
  data_size : Nat
  group_identifier : Nat
  inode_number : Nat
  mode : Nat
  modification_time : Nat
  path : List Nat
  size : Nat
  user_identifier : Nat
deriving DecidableEq, Repr

/-- Byte values of the archive end sentinel path TRAILER!!! . -/
def trailerPath : List Nat := [84, 82, 65, 73, 76, 69, 82, 33, 33, 33]

/-- Truncation of the decoded path at the first null byte, modelling
string.partition on the null character. -/
def takeUntilNull : List Nat → List Nat
  | [] => []
  | c :: cs => if c = 0 then [] else c :: takeUntilNull cs

/-- One entry decode, `CPIOArchiveFile._ReadFileEntry` with debug off: read and
parse the fixed header (construct fails when the read is short), read the path
string and truncate it at the first null (ascii decode fails on a byte above
127), compute the path alignment padding, and assemble the entry whose total
record size is header size + path size + padding + file size, plus for the new
ascii variants the trailing padding that the source adds after advancing the
offset past the file data. -/
def ReadFileEntry (fmt : CPIOFormat) (data : List Nat) (file_offset : Nat) :
    Option CPIOArchiveFileEntry :=
  let hsz := headerSize fmt
  let hdr := sub data file_offset hsz
  if hdr.length ≠ hsz then none
  else
    match decodeHeader fmt hdr with
    | none => none
    | some f =>
      let pdata := sub data (file_offset + hsz) f.path_string_size
      if ¬ (pdata.all (fun c => c < 128)) then none
      else
        let path_string := takeUntilNull pdata
        let off2 := file_offset + hsz + f.path_string_size
        let padding_size := pathPadding fmt off2
        let entry : CPIOArchiveFileEntry := {
          data_offset := off2 + padding_size
          data_size := f.file_size
          group_identifier := f.group_identifier
          inode_number := f.inode_number
          mode := f.mode
          modification_time := f.modification_time
          path := path_string
          size := hsz + f.path_string_size + padding_size + f.file_size
          user_identifier := f.user_identifier }
        match fmt with
        | .newc => some { entry with
            size := entry.size + pad4 (entry.data_offset + f.file_size) }
        | .crc => some { entry with
            size := entry.size + pad4 (entry.data_offset + f.file_size) }
        | _ => some entry

/-- The scan loop of `CPIOArchiveFile._ReadFileEntries`: starting from the
cumulative offset, decode one entry, advance the offset by its total record
size, stop when the sentinel path is seen (the size reported is the offset
right after the sentinel record), skip entries whose path is already in the
catalog, and otherwise append to the catalog. The python while loop runs as
long as the offset is below the known file size or the file size is unknown
(zero); `fuel` bounds the number of iterations, `none` covering both a decode
failure and fuel exhaustion. -/
def ReadFileEntriesLoop (fmt : CPIOFormat) (data : List Nat) (fsz : Nat) :
    Nat → Nat → List CPIOArchiveFileEntry → Option (List CPIOArchiveFileEntry × Nat)
  | 0, _, _ => none
  | fuel + 1, file_offset, acc =>
    if file_offset < fsz ∨ fsz = 0 then
      match ReadFileEntry fmt data file_offset with
      | none => none
      | some e =>
        let off := file_offset + e.size
        if e.path = trailerPath then some (acc, off)
        else if acc.any (fun x => x.path = e.path) then
          ReadFileEntriesLoop fmt data fsz fuel off acc
        else
          ReadFileEntriesLoop fmt data fsz fuel off (acc ++ [e])
    else some (acc, file_offset)

/-- Model of `CPIOArchiveFile._ReadFileEntries`: the scan loop started at offset 0 with
an empty catalog. The result carries the catalog in insertion order together
with the reported archive size. -/
def ReadFileEntries (fmt : CPIOFormat) (data : List Nat) (fsz fuel : Nat) :
    Option (List CPIOArchiveFileEntry × Nat) :=
  ReadFileEntriesLoop fmt data fsz fuel 0 []

/-- State of the in-file data range file-like object `DataRange`: a window of
the parent stream given by an offset and a size, plus a private cursor. The
fields are integers because the python attributes can hold any int. -/
structure DataRange where
  current_offset : Int
  range_offset : Int
  range_size : Int
deriving DecidableEq, Repr

/-- Model of `DataRange.seek`: after rejecting a negative current offset, a
relative-to-current whence adds the cursor, a relative-to-end whence adds the
range size, any whence other than those two and absolute raises, and a
negative resulting offset raises; otherwise the cursor becomes the result.
Whence values follow os: 0 absolute, 1 relative to current, 2 relative to
end. `none` models the IOError raises. -/
def DataRange.seek (s : DataRange) (offset whence : Int) : Option DataRange :=
  if s.current_offset < 0 then none
  else if whence = 1 then
    let o := offset + s.current_offset
    if o < 0 then none else some { s with current_offset := o }
  else if whence = 2 then
    let o := offset + s.range_size
    if o < 0 then none else some { s with current_offset := o }
  else if whence = 0 then
    if offset < 0 then none else some { s with current_offset := offset }
  else none

/-- Python file semantics of seek(offset) followed by read(n) on the parent
stream: a seek to a negative offset raises, otherwise at most n bytes starting
at the offset are returned, fewer near end of stream. -/
def pyFileRead (data : List Nat) (offset : Int) (n : Nat) : Option (List Nat) :=
  if offset < 0 then none
  else some ((data.drop offset.toNat).take n)

/-- Model of `CPIOArchiveFileEntry.read` with an explicit size, the only call shape in
the repository: an empty result once the cursor reached the data size,
otherwise the remaining byte count clipped to the requested size is read from
the parent stream at data offset plus cursor, and the cursor advances by the
number of bytes obtained. The cursor is an integer because
`CPIOArchiveFileEntry.seek` can make it negative. -/
def CPIOArchiveFileEntry.read (e : CPIOArchiveFileEntry) (data : List Nat)
    (cur : Int) (size : Nat) : Option (List Nat × Int) :=
  if (e.data_size : Int) ≤ cur then some ([], cur)
  else
    let read_size : Int := (e.data_size : Int) - cur
    let read_size := if read_size > (size : Int) then (size : Int) else read_size
    let file_offset := (e.data_offset : Int) + cur
    match pyFileRead data file_offset read_size.toNat with
    | none => none
    | some d => some (d, cur + d.length)

/-- Model of `CPIOArchiveFileEntry.seek`: relative-to-current adds the offset to the
cursor, relative-to-end sets the cursor to data size plus offset, absolute
sets the cursor to the offset, and any other whence raises; no sign check is
performed on the result. -/
def CPIOArchiveFileEntry.seek (e : CPIOArchiveFileEntry) (cur : Int)
    (offset whence : Int) : Option Int :=
  if whence = 1 then some (cur + offset)
  else if whence = 2 then some ((e.data_size : Int) + offset)
  else if whence = 0 then some offset
  else none

/-- Signature detection of `CPIOArchiveFile.OpenFileObject`: read six bytes at
offset 0, and only when more than two bytes were obtained compare the first
two bytes against the binary signatures and the full six bytes against the
ascii signatures; `none` models the unsupported format IOError. -/
def detectFormat (data : List Nat) : Option CPIOFormat :=
  let signature_data := sub data 0 6
  if 2 < signature_data.length then
    if signature_data.take 2 = [113, 199] then some .binBigEndian
    else if signature_data.take 2 = [199, 113] then some .binLittleEndian
    else if signature_data = [48, 55, 48, 55, 48, 55] then some .odc
    else if signature_data = [48, 55, 48, 55, 48, 49] then some .newc
    else if signature_data = [48, 55, 48, 55, 48, 50] then some .crc
    else none
  else none

/-- Model of `CPIOArchiveFile.OpenFileObject`: detect the format from the leading
signature and only then scan the entries; an unrecognized signature fails
before any entry is read. `fsz` models the value of self. _file_size while
the scan runs; it is kept generic because the loop condition reads it, but in
every scan the program performs it is zero: the attribute is initialized to
zero, Open assigns the stat size only after OpenFileObject has already
completed the scan, and both call sites use a freshly constructed archive
object. -/
def OpenFileObject (data : List Nat) (fsz fuel : Nat) :
    Option (CPIOFormat × List CPIOArchiveFileEntry × Nat) :=
  match detectFormat data with
  | none => none
  | some fmt =>
    match ReadFileEntries fmt data fsz fuel with
    | none => none
    | some (es, sz) => some (fmt, es, sz)

/-- Python sorted() applied to a list of CPIOArchiveFileEntry objects, as in
`CPIOArchiveFileHasher.HashFileEntries`. The class defines no ordering, so
under python 3 the first comparison raises TypeError; a list with fewer than
two elements is returned without any comparison. `none` models the raise. -/
def pySortEntries : List CPIOArchiveFileEntry → Option (List CPIOArchiveFileEntry)
  | [] => some []
  | [e] => some [e]
  | _ => none

/-- The per-segment emission of `CPIOArchiveFileHasher.HashFileEntries`,
restricted to which entries produce a line and to the path carried on each
line (the SHA-256 digest is a black box collaborator): open the stream as an
archive with unknown length, iterate sorted() over the catalog entries, skip
every entry whose data size is zero, and emit one line per remaining entry. -/
def hashSegmentPaths (data : List Nat) (fuel : Nat) : Option (List (List Nat)) :=
  match OpenFileObject data 0 fuel with
  | none => none
  | some (_, es, _) =>
    match pySortEntries es with
    | none => none
    | some sorted_es =>
      some ((sorted_es.filter (fun e => e.data_size ≠ 0)).map (fun e => e.path))

/-- Eight ascii zero digits, one blank 8-character numeric field. -/
def z8 : List Nat := [48, 48, 48, 48, 48, 48, 48, 48]

/-- An 8-character ascii numeric field with seven zeros and a final digit. -/
def h8 (c : Nat) : List Nat := [48, 48, 48, 48, 48, 48, 48, c]

/-- The six signature bytes 070701 of the new ascii format. -/
def newcMagic : List Nat := [48, 55, 48, 55, 48, 49]

/-- A 110-byte new ascii header with the given inode, file size and path size
fields, number of links one, and every other numeric field zero. -/
def newcHeader (inode fsize namesize : List Nat) : List Nat :=
  newcMagic ++ inode ++ z8 ++ z8 ++ z8 ++ h8 49 ++ z8 ++ fsize ++
    z8 ++ z8 ++ z8 ++ z8 ++ namesize ++ z8

/-- A 26-byte binary little-endian header with the given low bytes of the
inode, path size and file size fields, number of links one, and every other
field zero. -/
def binLEHeader (inode psz fsz : Nat) : List Nat :=
  [199, 113, 0, 0, inode, 0, 0, 0, 0, 0, 0, 0, 1, 0, 0, 0, 0, 0, 0, 0,
    psz, 0, 0, 0, fsz, 0]

/-- A 112-byte stream holding one new ascii record for path a whose header
declares 1000 bytes of file data, none of which are present. -/
def c9data : List Nat :=
  newcHeader (h8 49) [48, 48, 48, 48, 48, 51, 69, 56] (h8 50) ++ [97, 0]

/-- A 37-byte binary little-endian stream holding only the sentinel record. -/
def binTrailerData : List Nat :=
  binLEHeader 0 11 0 ++ trailerPath ++ [0]

/-- A binary little-endian archive with one entry named b carrying one data
byte, followed by the sentinel record. -/
def c9wData : List Nat :=
  binLEHeader 1 2 1 ++ [98, 0] ++ [55] ++ binLEHeader 0 11 0 ++ trailerPath ++ [0]

/-- A binary little-endian archive with two records that share the path a but
differ in their inode field, followed by the sentinel record. -/
def c5data : List Nat :=
  binLEHeader 1 2 0 ++ [97, 0] ++ binLEHeader 2 2 0 ++ [97, 0] ++
    binLEHeader 0 11 0 ++ trailerPath ++ [0]

/-- A new ascii archive with two one-byte entries named b and a, in that
order, followed by the sentinel record. -/
def c1data : List Nat :=
  newcHeader (h8 49) (h8 49) (h8 50) ++ [98, 0] ++ [120, 0, 0, 0] ++
    newcHeader (h8 50) (h8 49) (h8 50) ++ [97, 0] ++ [121, 0, 0, 0] ++
    newcHeader (h8 49) z8 (h8 66) ++ trailerPath ++ [0]

/-- The header fields decoded from the record of `c9data`. -/
def c9Fields : HeaderFields :=
  { inode_number := 1, mode := 0, user_identifier := 0, group_identifier := 0
    modification_time := 0, path_string_size := 2, file_size := 1000 }

/-- The catalog entry decoded from the record of `c9data`. -/
def c9Entry : CPIOArchiveFileEntry :=
  { data_offset := 112, data_size := 1000, group_identifier := 0
    inode_number := 1, mode := 0, modification_time := 0, path := [97]
    size := 1112, user_identifier := 0 }

/-- The sentinel record entry decoded from `binTrailerData`. -/
def binTrailerEntry : CPIOArchiveFileEntry :=
  { data_offset := 38, data_size := 0, group_identifier := 0
    inode_number := 0, mode := 0, modification_time := 0, path := trailerPath
    size := 38, user_identifier := 0 }

/-- The single catalog entry of `c9wData`. -/
def c9wEntry : CPIOArchiveFileEntry :=
  { data_offset := 28, data_size := 1, group_identifier := 0
    inode_number := 1, mode := 0, modification_time := 0, path := [98]
    size := 29, user_identifier := 0 }

/-- The single catalog entry of `c5data`, carrying the fields of the first of
the two records that share the path a. -/
def c5Entry : CPIOArchiveFileEntry :=
  { data_offset := 28, data_size := 0, group_identifier := 0
    inode_number := 1, mode := 0, modification_time := 0, path := [97]
    size := 28, user_identifier := 0 }

/-- A 20-byte parent stream whose byte at position i has value i. -/
def c10Data : List Nat := List.range 20

/-- An entry whose content window is bytes 10 to 14 of `c10Data`. -/
def c10Entry : CPIOArchiveFileEntry :=
  { data_offset := 10, data_size := 5, group_identifier := 0
    inode_number := 3, mode := 0, modification_time := 0, path := [97]
    size := 15, user_identifier := 0 }

/-- A 6-byte parent stream for the entry reader bound checks. -/
def c7Data : List Nat := [9, 9, 5, 6, 7, 9]

/-- An entry whose content window is bytes 2 to 4 of `c7Data`. -/
def c7Entry : CPIOArchiveFileEntry :=
  { data_offset := 2, data_size := 3, group_identifier := 0
    inode_number := 4, mode := 0, modification_time := 0, path := [98]
    size := 10, user_identifier := 0 }

theorem pad2_le (off : Nat) : pad2 off ≤ 1 := by
  simp only [pad2]
  split <;> omega

theorem pad2_mod (off : Nat) : (off + pad2 off) % 2 = 0 := by
  simp only [pad2]
  split <;> omega

theorem pad4_le (off : Nat) : pad4 off ≤ 3 := by
  simp only [pad4]
  split <;> omega

theorem pad4_mod (off : Nat) : (off + pad4 off) % 4 = 0 := by
  simp only [pad4]
  split <;> omega

/-- Claim C4: for every entry decode, the path alignment padding computed
after the path string is 0 or 1 bytes for the two binary formats and brings
the running offset to an even value, is 0 to 3 bytes for the new ascii
formats and brings the offset to a multiple of 4, and is always 0 bytes for
portable ascii. -/
theorem claimC4 (off : Nat) :
    pathPadding CPIOFormat.binBigEndian off ≤ 1 ∧
    (off + pathPadding CPIOFormat.binBigEndian off) % 2 = 0 ∧
    pathPadding CPIOFormat.binLittleEndian off ≤ 1 ∧
    (off + pathPadding CPIOFormat.binLittleEndian off) % 2 = 0 ∧
    pathPadding CPIOFormat.odc off = 0 ∧
    pathPadding CPIOFormat.newc off ≤ 3 ∧
    (off + pathPadding CPIOFormat.newc off) % 4 = 0 ∧
    pathPadding CPIOFormat.crc off ≤ 3 ∧
    (off + pathPadding CPIOFormat.crc off) % 4 = 0 :=
  ⟨pad2_le off, pad2_mod off, pad2_le off, pad2_mod off, rfl,
    pad4_le off, pad4_mod off, pad4_le off, pad4_mod off⟩

/-- Claim C3: for every successfully decoded entry of a new ascii (newc or
crc) archive, the total record size equals 110 plus path string size plus
path alignment padding plus file size plus the trailing padding, and the
trailing padding is below 4 and rounds the post-data offset up to the next
multiple of 4. -/
theorem claimC3 (fmt : CPIOFormat) (data : List Nat) (off : Nat)
    (e : CPIOArchiveFileEntry) (f : HeaderFields)
    (hfmt : fmt = CPIOFormat.newc ∨ fmt = CPIOFormat.crc)
    (h : ReadFileEntry fmt data off = some e)
    (hf : decodeHeader fmt (sub data off 110) = some f) :
    e.size = 110 + f.path_string_size +
        pathPadding fmt (off + 110 + f.path_string_size) + f.file_size +
        pad4 (off + 110 + f.path_string_size +
          pathPadding fmt (off + 110 + f.path_string_size) + f.file_size) ∧
    pad4 (off + 110 + f.path_string_size +
        pathPadding fmt (off + 110 + f.path_string_size) + f.file_size) ≤ 3 ∧
    (off + 110 + f.path_string_size +
        pathPadding fmt (off + 110 + f.path_string_size) + f.file_size +
      pad4 (off + 110 + f.path_string_size +
        pathPadding fmt (off + 110 + f.path_string_size) + f.file_size)) % 4 = 0 := by
  rcases hfmt with rfl | rfl <;>
  · simp only [ReadFileEntry, headerSize, hf] at h
    split at h
    · exact absurd h (by simp)
    · split at h
      · exact absurd h (by simp)
      · simp only [Option.some.injEq] at h
        subst h
        refine ⟨rfl, pad4_le _, pad4_mod _⟩

/-- Witness for claim C3 at the concrete record of `c9data`. -/
theorem claimC3_witness :
    c9Entry.size = 110 + c9Fields.path_string_size +
        pathPadding CPIOFormat.newc (0 + 110 + c9Fields.path_string_size) +
        c9Fields.file_size +
        pad4 (0 + 110 + c9Fields.path_string_size +
          pathPadding CPIOFormat.newc (0 + 110 + c9Fields.path_string_size) +
          c9Fields.file_size) ∧
    pad4 (0 + 110 + c9Fields.path_string_size +
        pathPadding CPIOFormat.newc (0 + 110 + c9Fields.path_string_size) +
        c9Fields.file_size) ≤ 3 ∧
    (0 + 110 + c9Fields.path_string_size +
        pathPadding CPIOFormat.newc (0 + 110 + c9Fields.path_string_size) +
        c9Fields.file_size +
      pad4 (0 + 110 + c9Fields.path_string_size +
        pathPadding CPIOFormat.newc (0 + 110 + c9Fields.path_string_size) +
        c9Fields.file_size)) % 4 = 0 :=
  claimC3 CPIOFormat.newc c9data 0 c9Entry c9Fields (Or.inl rfl)
    (by decide) (by decide)

/-- Claim C7: for every entry and every requested read size, the entry data
reader returns at most data size minus cursor bytes, returns an empty result
once the cursor reached the data size, and every byte returned sits at a
parent stream position below data offset plus data size, even when the
requested size exceeds the remaining bytes. -/
theorem claimC7 (e : CPIOArchiveFileEntry) (data : List Nat) (cur : Int)
    (size : Nat) (d : List Nat) (cur2 : Int)
    (h : CPIOArchiveFileEntry.read e data cur size = some (d, cur2)) :
    (d.length : Int) ≤ max ((e.data_size : Int) - cur) 0 ∧
    ((e.data_size : Int) ≤ cur → d = []) ∧
    ∀ i : Nat, i < d.length →
      (e.data_offset : Int) + cur + i < (e.data_offset : Int) + e.data_size := by
  simp only [CPIOArchiveFileEntry.read, pyFileRead] at h
  split at h
  · next hle =>
    simp only [Option.some.injEq, Prod.mk.injEq] at h
    obtain ⟨rfl, rfl⟩ := h
    refine ⟨by simp, fun _ => rfl, ?_⟩
    intro i hi
    simp at hi
  · next hlt =>
    split at h
    · exact absurd h (by simp)
    · next d0 hoff =>
      simp only [Option.some.injEq, Prod.mk.injEq] at h
      obtain ⟨rfl, rfl⟩ := h
      split at hoff
      · exact absurd hoff (by simp)
      · simp only [Option.some.injEq] at hoff
        subst hoff
        refine ⟨?_, fun hc => absurd hc hlt, ?_⟩
        · rw [List.length_take]
          split <;> omega
        · intro i hi
          rw [List.length_take] at hi
          split at hi <;> omega

/-- Witness for claim C7: a read of up to ten bytes at cursor one inside a
three-byte entry returns two bytes. -/
theorem claimC7_witness :
    ((([6, 7] : List Nat)).length : Int) ≤ max ((c7Entry.data_size : Int) - 1) 0 :=
  (claimC7 c7Entry c7Data 1 10 [6, 7] 3 (by decide)).1

/-- The resulting position of a view seek after the whence adjustment: the
given offset, plus the cursor for relative-to-current, plus the range size
for relative-to-end. -/
def seekTarget (s : DataRange) (offset whence : Int) : Int :=
  offset + (if whence = 1 then s.current_offset
    else if whence = 2 then s.range_size else 0)

/-- Claim C8: the bounded byte-range view seek supports absolute,
relative-to-current and relative-to-end positioning, raises exactly when the
whence value is none of those three or the resulting position is negative,
and otherwise makes the private cursor that resulting position. Stated for
every view state with a non-negative cursor, the only states the class
itself can produce. -/
theorem claimC8 (s : DataRange) (offset whence : Int)
    (hcur : 0 ≤ s.current_offset) :
    (DataRange.seek s offset whence = none ↔
      (¬(whence = 0 ∨ whence = 1 ∨ whence = 2) ∨
        seekTarget s offset whence < 0)) ∧
    ((whence = 0 ∨ whence = 1 ∨ whence = 2) →
      0 ≤ seekTarget s offset whence →
      DataRange.seek s offset whence =
        some { s with current_offset := seekTarget s offset whence }) := by
  have h0 : ¬ s.current_offset < 0 := not_lt.2 hcur
  by_cases h1 : whence = 1
  · subst h1
    constructor
    · by_cases hneg : offset + s.current_offset < 0 <;>
        simp [DataRange.seek, seekTarget, h0, hneg]
    · intro _ hpos
      simp only [seekTarget] at hpos
      norm_num at hpos
      simp [DataRange.seek, seekTarget, h0, not_lt.2 hpos]
  · by_cases h2 : whence = 2
    · subst h2
      constructor
      · by_cases hneg : offset + s.range_size < 0 <;>
          simp [DataRange.seek, seekTarget, h0, hneg]
      · intro _ hpos
        simp only [seekTarget] at hpos
        norm_num at hpos
        simp [DataRange.seek, seekTarget, h0, not_lt.2 hpos]
    · by_cases hw : whence = 0
      · subst hw
        constructor
        · by_cases hneg : offset < 0 <;>
            simp [DataRange.seek, seekTarget, h0, hneg]
        · intro _ hpos
          simp only [seekTarget] at hpos
          norm_num at hpos
          simp [DataRange.seek, seekTarget, h0, not_lt.2 hpos]
      · constructor
        · simp [DataRange.seek, seekTarget, h0, h1, h2, hw]
        · intro hor _
          rcases hor with h | h | h <;> contradiction

/-- Witness for claim C8: an absolute seek to three on a fresh ten-byte view
moves the cursor to three. -/
theorem claimC8_witness :
    DataRange.seek ⟨0, 0, 10⟩ 3 0 = some ⟨3, 0, 10⟩ :=
  (claimC8 ⟨0, 0, 10⟩ 3 0 (by decide)).2 (Or.inl rfl) (by decide)

/-- Claim C10: the entry data reader seek accepts a negative resulting
position without any error, only an unsupported whence value raises, and
after such a seek a read with a positive requested size can return bytes
located before the content window of the entry: on `c10Data` the returned
three bytes are the parent stream bytes at offsets 5 to 7, all below the
data offset 10. -/
theorem claimC10 :
    (∀ (e : CPIOArchiveFileEntry) (cur offset whence : Int),
        (whence = 0 ∨ whence = 1 ∨ whence = 2) →
        (CPIOArchiveFileEntry.seek e cur offset whence).isSome = true) ∧
    (∀ (e : CPIOArchiveFileEntry) (cur offset whence : Int),
        whence ≠ 0 → whence ≠ 1 → whence ≠ 2 →
        CPIOArchiveFileEntry.seek e cur offset whence = none) ∧
    CPIOArchiveFileEntry.seek c10Entry 0 (-5) 0 = some (-5) ∧
    CPIOArchiveFileEntry.read c10Entry c10Data (-5) 3 = some (sub c10Data 5 3, -2) ∧
    sub c10Data 5 3 = [5, 6, 7] ∧ 5 + 3 ≤ c10Entry.data_offset := by
  refine ⟨?_, ?_, by decide, by decide, by decide, by decide⟩
  · intro e cur offset whence hw
    rcases hw with rfl | rfl | rfl <;> norm_num [CPIOArchiveFileEntry.seek]
  · intro e cur offset whence hw0 hw1 hw2
    simp [CPIOArchiveFileEntry.seek, hw0, hw1, hw2]

/-- Witness for claim C10: a relative seek by minus nine from cursor seven
succeeds. -/
theorem claimC10_witness :
    (CPIOArchiveFileEntry.seek c10Entry 7 (-9) 1).isSome = true :=
  claimC10.1 c10Entry 7 (-9) 1 (Or.inr (Or.inl rfl))

/-- No entry of a catalog produced by the scan loop carries the sentinel
path, provided none of the entries accumulated so far does. -/
theorem scanNoTrailer (fmt : CPIOFormat) (data : List Nat) (fsz : Nat) :
    ∀ (fuel off : Nat) (acc es : List CPIOArchiveFileEntry) (sz : Nat),
      ReadFileEntriesLoop fmt data fsz fuel off acc = some (es, sz) →
      (∀ e ∈ acc, e.path ≠ trailerPath) →
      ∀ e ∈ es, e.path ≠ trailerPath := by
  intro fuel
  induction fuel with
  | zero =>
    intro off acc es sz h
    simp [ReadFileEntriesLoop] at h
  | succ n ih =>
    intro off acc es sz h hacc
    simp only [ReadFileEntriesLoop] at h
    split at h
    · split at h
      · exact absurd h (by simp)
      · next e he =>
        split at h
        · next htr =>
          simp only [Option.some.injEq, Prod.mk.injEq] at h
          obtain ⟨rfl, rfl⟩ := h
          exact hacc
        · next htr =>
          split at h
          · exact ih _ _ _ _ h hacc
          · refine ih _ _ _ _ h ?_
            intro x hx
            rcases List.mem_append.1 hx with hx | hx
            · exact hacc x hx
            · rcases List.mem_singleton.1 hx with rfl
              exact htr
    · simp only [Option.some.injEq, Prod.mk.injEq] at h
      obtain ⟨rfl, rfl⟩ := h
      exact hacc

/-- Claim C2: for every archive whose sequential scan reaches an entry whose
path is the sentinel TRAILER!!!, the scan stops there returning the catalog
accumulated so far unchanged, so the sentinel is never added, and the
reported size is the cumulative offset at the sentinel plus the size of the
sentinel record itself, the cumulative offset being the sum of the record
sizes of all entries scanned before. -/
theorem claimC2 :
    (∀ (fmt : CPIOFormat) (data : List Nat) (fsz fuel off : Nat)
        (acc es : List CPIOArchiveFileEntry) (sz : Nat)
        (t : CPIOArchiveFileEntry),
        ReadFileEntriesLoop fmt data fsz fuel off acc = some (es, sz) →
        ReadFileEntry fmt data off = some t →
        t.path = trailerPath →
        (off < fsz ∨ fsz = 0) →
        es = acc ∧ sz = off + t.size) ∧
    (∀ (fmt : CPIOFormat) (data : List Nat) (fsz fuel : Nat)
        (es : List CPIOArchiveFileEntry) (sz : Nat),
        ReadFileEntries fmt data fsz fuel = some (es, sz) →
        ∀ e ∈ es, e.path ≠ trailerPath) := by
  constructor
  · intro fmt data fsz fuel off acc es sz t h ht htr hcond
    cases fuel with
    | zero => simp [ReadFileEntriesLoop] at h
    | succ n =>
      simp only [ReadFileEntriesLoop, ht, htr, hcond] at h
      simp at h
      exact ⟨h.1.symm, h.2.symm⟩
  · intro fmt data fsz fuel es sz h
    exact scanNoTrailer fmt data fsz fuel 0 [] es sz h (by simp)

/-- Witness for claim C2 on the sentinel-only archive `binTrailerData`: the
catalog stays empty and the size is the sentinel record size. -/
theorem claimC2_witness :
    ([] : List CPIOArchiveFileEntry) = [] ∧
      (38 : Nat) = 0 + binTrailerEntry.size :=
  claimC2.1 CPIOFormat.binLittleEndian binTrailerData 0 5 0 [] [] 38
    binTrailerEntry (by decide) (by decide) (by decide) (Or.inr rfl)

/-- Claim C5: the catalog never holds two entries with the same path, and a
scan only ever appends behind the entries already retained, so the entry kept
for a duplicated path is the first occurrence with its metadata, later
occurrences being discarded without overwriting it. -/
theorem claimC5 :
    ∀ (fmt : CPIOFormat) (data : List Nat) (fsz fuel off : Nat)
      (acc es : List CPIOArchiveFileEntry) (sz : Nat),
      ReadFileEntriesLoop fmt data fsz fuel off acc = some (es, sz) →
      List.Pairwise (fun a b => a.path ≠ b.path) acc →
      List.Pairwise (fun a b => a.path ≠ b.path) es ∧ ∃ tl, es = acc ++ tl := by
  intro fmt data fsz fuel
  induction fuel with
  | zero =>
    intro off acc es sz h
    simp [ReadFileEntriesLoop] at h
  | succ n ih =>
    intro off acc es sz h hacc
    simp only [ReadFileEntriesLoop] at h
    split at h
    · split at h
      · exact absurd h (by simp)
      · next e he =>
        split at h
        · simp only [Option.some.injEq, Prod.mk.injEq] at h
          obtain ⟨rfl, rfl⟩ := h
          exact ⟨hacc, [], by simp⟩
        · next htr =>
          split at h
          · exact ih _ _ _ _ h hacc
          · next hdup =>
            simp only [List.any_eq_true, decide_eq_true_eq, not_exists,
              not_and] at hdup
            have hacc2 :
                List.Pairwise (fun a b => a.path ≠ b.path) (acc ++ [e]) := by
              rw [List.pairwise_append]
              refine ⟨hacc, List.pairwise_singleton _ _, ?_⟩
              intro a ha b hb
              rcases List.mem_singleton.1 hb with rfl
              exact hdup a ha
            obtain ⟨hp, tl, htl⟩ := ih _ _ _ _ h hacc2
            exact ⟨hp, e :: tl, by simpa using htl⟩
    · simp only [Option.some.injEq, Prod.mk.injEq] at h
      obtain ⟨rfl, rfl⟩ := h
      exact ⟨hacc, [], by simp⟩

/-- Witness for claim C5 on `c5data`, whose two records share the path a: the
scan retains one entry. -/
theorem claimC5_witness :
    List.Pairwise (fun a b : CPIOArchiveFileEntry => a.path ≠ b.path)
      [c5Entry] :=
  (claimC5 CPIOFormat.binLittleEndian c5data 0 5 0 [] [c5Entry] 94
    (by decide) List.Pairwise.nil).1

/-- A successfully decoded entry keeps its data region inside its own record,
and its decode only succeeds when the stream reaches at least to the record
start. -/
theorem ReadFileEntry_bounds (fmt : CPIOFormat) (data : List Nat) (off : Nat)
    (e : CPIOArchiveFileEntry) (h : ReadFileEntry fmt data off = some e) :
    e.data_offset + e.data_size ≤ off + e.size ∧ off ≤ data.length := by
  cases fmt <;>
  · simp only [ReadFileEntry, headerSize] at h
    split at h
    · exact absurd h (by simp)
    · next hlen =>
      split at h
      · exact absurd h (by simp)
      · next f hf =>
        split at h
        · exact absurd h (by simp)
        · simp only [Option.some.injEq] at h
          subst h
          simp only [sub, List.length_take, List.length_drop] at hlen
          constructor
          · simp only []
            omega
          · omega

/-- Every entry of a catalog produced by a scan with unknown stream length is
bounded by the stream length, provided the entries accumulated so far are
bounded by the current offset. With unknown length the loop can only return
by reaching the sentinel, whose successful decode pins the current offset
below the stream length. -/
theorem scanBounds (fmt : CPIOFormat) (data : List Nat) :
    ∀ (fuel off : Nat) (acc es : List CPIOArchiveFileEntry) (sz : Nat),
      ReadFileEntriesLoop fmt data 0 fuel off acc = some (es, sz) →
      (∀ e ∈ acc, e.data_offset + e.data_size ≤ off) →
      ∀ e ∈ es, e.data_offset + e.data_size ≤ data.length := by
  intro fuel
  induction fuel with
  | zero =>
    intro off acc es sz h
    simp [ReadFileEntriesLoop] at h
  | succ n ih =>
    intro off acc es sz h hacc
    simp only [ReadFileEntriesLoop] at h
    rw [if_pos (Or.inr trivial)] at h
    split at h
    · exact absurd h (by simp)
    · next e he =>
      have hb := ReadFileEntry_bounds fmt data off e he
      split at h
      · simp only [Option.some.injEq, Prod.mk.injEq] at h
        obtain ⟨rfl, rfl⟩ := h
        intro x hx
        exact le_trans (hacc x hx) hb.2
      · split at h
        · exact ih _ _ _ _ h
            (fun x hx => le_trans (hacc x hx) (Nat.le_add_right _ _))
        · refine ih _ _ _ _ h ?_
          intro x hx
          rcases List.mem_append.1 hx with hx | hx
          · exact le_trans (hacc x hx) (Nat.le_add_right _ _)
          · rcases List.mem_singleton.1 hx with rfl
            exact hb.1

/-- Claim C9: for every entry placed in the catalog by a completed archive
scan, the content offset plus the content length does not exceed the parent
stream's usable length. Every scan the program performs runs with
self. _file_size equal to zero, because Open assigns the stat size only after
OpenFileObject has already completed the scan, so a completed scan is
exactly one that ends at the sentinel, and the sentinel's successful decode
bounds every cataloged entry inside the stream. -/
theorem claimC9 (fmt : CPIOFormat) (data : List Nat) (fuel : Nat)
    (es : List CPIOArchiveFileEntry) (sz : Nat)
    (h : ReadFileEntries fmt data 0 fuel = some (es, sz)) :
    ∀ e ∈ es, e.data_offset + e.data_size ≤ data.length :=
  scanBounds fmt data fuel 0 [] es sz h (by simp)

/-- Witness for claim C9 on `c9wData`. -/
theorem claimC9_witness :
    c9wEntry.data_offset + c9wEntry.data_size ≤ c9wData.length :=
  claimC9 CPIOFormat.binLittleEndian c9wData 5 [c9wEntry] 66
    (by decide) c9wEntry (by simp)

/-- Claim C6 (amended): when the stream yields more than two signature bytes,
the format tag follows the leading signature with the five listed outcomes
and any other signature fails with the unsupported format error; a stream of
two or fewer bytes always fails, even when those bytes are a full binary
signature; a detection failure makes the open fail before any entry is
read. -/
theorem claimC6_amended (data : List Nat) :
    (2 < data.length →
      ((data.take 2 = [113, 199] →
          detectFormat data = some CPIOFormat.binBigEndian) ∧
       (data.take 2 = [199, 113] →
          detectFormat data = some CPIOFormat.binLittleEndian) ∧
       (data.take 6 = [48, 55, 48, 55, 48, 55] →
          detectFormat data = some CPIOFormat.odc) ∧
       (data.take 6 = [48, 55, 48, 55, 48, 49] →
          detectFormat data = some CPIOFormat.newc) ∧
       (data.take 6 = [48, 55, 48, 55, 48, 50] →
          detectFormat data = some CPIOFormat.crc) ∧
       (data.take 2 ≠ [113, 199] → data.take 2 ≠ [199, 113] →
        data.take 6 ≠ [48, 55, 48, 55, 48, 55] →
        data.take 6 ≠ [48, 55, 48, 55, 48, 49] →
        data.take 6 ≠ [48, 55, 48, 55, 48, 50] →
        detectFormat data = none))) ∧
    (data.length ≤ 2 → detectFormat data = none) ∧
    (∀ fsz fuel : Nat, detectFormat data = none →
      OpenFileObject data fsz fuel = none) := by
  have hsub : sub data 0 6 = data.take 6 := by simp [sub]
  have htt : (data.take 6).take 2 = data.take 2 := by
    rw [List.take_take]
    norm_num
  have hlen6 : (sub data 0 6).length = min 6 data.length := by
    simp [sub]
  refine ⟨?_, ?_, ?_⟩
  · intro hl
    have hcond : 2 < (sub data 0 6).length := by
      rw [hlen6]
      omega
    refine ⟨?_, ?_, ?_, ?_, ?_, ?_⟩
    · intro hbe
      simp only [detectFormat]
      rw [if_pos hcond, hsub, htt, if_pos hbe]
    · intro hle
      have hne : data.take 2 ≠ [113, 199] := by
        rw [hle]
        decide
      simp only [detectFormat]
      rw [if_pos hcond, hsub, htt, if_neg hne, if_pos hle]
    · intro hodc
      have h2 : data.take 2 = [48, 55] := by
        rw [← htt, hodc]
        decide
      have hne1 : data.take 2 ≠ [113, 199] := by rw [h2]; decide
      have hne2 : data.take 2 ≠ [199, 113] := by rw [h2]; decide
      simp only [detectFormat]
      rw [if_pos hcond, hsub, htt, if_neg hne1, if_neg hne2, if_pos hodc]
    · intro hnewc
      have h2 : data.take 2 = [48, 55] := by
        rw [← htt, hnewc]
        decide
      have hne1 : data.take 2 ≠ [113, 199] := by rw [h2]; decide
      have hne2 : data.take 2 ≠ [199, 113] := by rw [h2]; decide
      have hne3 : data.take 6 ≠ [48, 55, 48, 55, 48, 55] := by
        rw [hnewc]
        decide
      simp only [detectFormat]
      rw [if_pos hcond, hsub, htt, if_neg hne1, if_neg hne2, if_neg hne3,
        if_pos hnewc]
    · intro hcrc
      have h2 : data.take 2 = [48, 55] := by
        rw [← htt, hcrc]
        decide
      have hne1 : data.take 2 ≠ [113, 199] := by rw [h2]; decide
      have hne2 : data.take 2 ≠ [199, 113] := by rw [h2]; decide
      have hne3 : data.take 6 ≠ [48, 55, 48, 55, 48, 55] := by
        rw [hcrc]
        decide
      have hne4 : data.take 6 ≠ [48, 55, 48, 55, 48, 49] := by
        rw [hcrc]
        decide
      simp only [detectFormat]
      rw [if_pos hcond, hsub, htt, if_neg hne1, if_neg hne2, if_neg hne3,
        if_neg hne4, if_pos hcrc]
    · intro hne1 hne2 hne3 hne4 hne5
      simp only [detectFormat]
      rw [if_pos hcond, hsub, htt, if_neg hne1, if_neg hne2, if_neg hne3,
        if_neg hne4, if_neg hne5]
  · intro hl
    simp only [detectFormat]
    rw [if_neg]
    rw [hlen6]
    omega
  · intro fsz fuel hnone
    simp only [OpenFileObject, hnone]

/-- Counterexample for claim C6 as stated: a stream of exactly the two bytes
of the binary big-endian signature is not detected as binary big-endian; the
open fails with the unsupported format error instead. -/
theorem claimC6_counterexample :
    detectFormat [113, 199] = none ∧
    detectFormat [113, 199] ≠ some CPIOFormat.binBigEndian ∧
    OpenFileObject [113, 199] 2 10 = none := by decide

/-- Witness for the amended claim C6: the six new ascii signature bytes are
detected as the newc format. -/
theorem claimC6_witness :
    detectFormat [48, 55, 48, 55, 48, 49] = some CPIOFormat.newc :=
  ((claimC6_amended [48, 55, 48, 55, 48, 49]).1 (by decide)).2.2.2.1 (by decide)

/-- Claim C1, code defect: on `c1data` the catalog holds the two entries with
paths b then a, both of nonzero content length, so the claim demands two hash
lines in ascending path order a before b; the hashing walk instead applies
sorted() to catalog entry objects that define no ordering, which raises
before any line of the segment is produced. -/
theorem claimC1_bug :
    (OpenFileObject c1data 0 10).map
        (fun r => r.2.1.map (fun e => (e.path, e.data_size))) =
      some [([98], 1), ([97], 1)] ∧
    hashSegmentPaths c1data 10 = none := by decide

end CPIO
